import Mathlib

/-!
Verification of the library-shasan document-ingestion pipeline.

The definitions below are shallow embeddings of the JavaScript/TypeScript
source of the repository:

* text normalization, meaningful-text test, CSV escaping
  (`scripts/index_granth_from_db_ocr500.mjs` lines 161-177, identical copies
  in the pdftotext-stream variant),
* the CSV parser of the CSV viewer page (`parseCsvRows`),
* work-set computation from candidates and processed identities
  (`index_granth_from_db_ocr500.mjs` main, lines 520-541),
* the per-page OCR fallback chain and per-document sort/filter pipeline,
* the page-by-page pdftotext extraction of the stream variant,
* the failed/processed status writes against the documents table,
* the CSV uploaders (conflict-resolving ocr500 variant and the plain
  in-memory variant),
* the shared-cursor bounded worker pool `runConcurrent`.

Strings are modelled as Lean `String` (a packed `List Char`); JavaScript
string methods are rendered as structurally recursive functions on
`List Char`.  JavaScript truthiness of nullable strings is modelled
explicitly (`strTruthy`): `null`/`undefined` and `""` are falsy.
-/

namespace LibraryShasan

/-- Whitespace class of JavaScript regular expressions (`\s`) and of
`String.prototype.trim`: tab, LF, VT, FF, CR, space, NBSP, and the Unicode
space separators plus BOM. -/
def jsWs (c : Char) : Bool :=
  let n := c.toNat
  n == 9 || n == 10 || n == 11 || n == 12 || n == 13 || n == 32 ||
  n == 0xa0 || n == 0x1680 || (decide (0x2000 ≤ n) && decide (n ≤ 0x200a)) ||
  n == 0x2028 || n == 0x2029 || n == 0x202f || n == 0x205f || n == 0x3000 ||
  n == 0xfeff

/-- Step function of `.replace(/\f/g, "\n")`. -/
def ffChar (c : Char) : Char := if c = '\x0c' then '\n' else c

/-- Step function of `.replace(/\r/g, "\n")`. -/
def crChar (c : Char) : Char := if c = '\r' then '\n' else c

/-- Embedding of `.replace(/\u0000/g, "")`. -/
def removeNulls (l : List Char) : List Char := l.filter (fun c => c != '\x00')

/-- Embedding of `.replace(/\f/g, "\n")`. -/
def ffToLf (l : List Char) : List Char := l.map ffChar

/-- Embedding of `.replace(/\r\n/g, "\n")`: each CR-LF pair collapses to a
single LF, a lone CR is left for the following `.replace(/\r/g, "\n")`. -/
def crlfToLf : List Char → List Char
  | [] => []
  | [c] => [c]
  | c :: d :: rest =>
    if c = '\r' ∧ d = '\n' then '\n' :: crlfToLf rest
    else c :: crlfToLf (d :: rest)

/-- Embedding of `.replace(/\r/g, "\n")`. -/
def crToLf (l : List Char) : List Char := l.map crChar

/-- Embedding of `String.prototype.trim`: drop leading and trailing
JavaScript whitespace. -/
def trimEnds (l : List Char) : List Char :=
  ((l.dropWhile jsWs).reverse.dropWhile jsWs).reverse

/-- Embedding of `normalizeText` (ocr500 script lines 161-168, and the
identical function of the pdftotext-stream variant): strip NULs, turn form
feeds and CR/CRLF line endings into LF, then trim. -/
def normalizeList (l : List Char) : List Char :=
  trimEnds (crToLf (crlfToLf (ffToLf (removeNulls l))))

/-- String-level wrapper of `normalizeList`; this is the source's
`normalizeText`. -/
def normalizeText (s : String) : String := String.mk (normalizeList s.data)

/-- Embedding of `.replace(/\s+/g, "")`: remove every JavaScript whitespace
character. -/
def stripWs (l : List Char) : List Char := l.filter (fun c => !jsWs c)

/-- Embedding of `hasMeaningfulText` (ocr500 lines 170-172): the normalized
text has at least one non-whitespace character. -/
def hasMeaningfulText (s : String) : Bool :=
  decide (0 < (stripWs (normalizeText s).data).length)

/- Helper lemmas about the normalization chain. -/

theorem map_eq_self_of_mem {f : Char → Char} {l : List Char}
    (h : ∀ c ∈ l, f c = c) : l.map f = l := by
  induction l with
  | nil => rfl
  | cons a t ih =>
    simp only [List.map_cons]
    rw [h a (by simp), ih (fun c hc => h c (by simp [hc]))]

theorem mem_crlfToLf : ∀ (l : List Char) (c : Char), c ∈ crlfToLf l → c = '\n' ∨ c ∈ l
  | [], c, h => by simp [crlfToLf] at h
  | [a], c, h => by
    simp only [crlfToLf] at h
    simp at h
    simp [h]
  | a :: b :: rest, c, h => by
    simp only [crlfToLf] at h
    by_cases hab : a = '\r' ∧ b = '\n'
    · rw [if_pos hab] at h
      rcases List.mem_cons.mp h with h1 | h2
      · exact Or.inl h1
      · rcases mem_crlfToLf rest c h2 with h3 | h4
        · exact Or.inl h3
        · exact Or.inr (by simp [h4])
    · rw [if_neg hab] at h
      rcases List.mem_cons.mp h with h1 | h2
      · exact Or.inr (by simp [h1])
      · rcases mem_crlfToLf (b :: rest) c h2 with h3 | h4
        · exact Or.inl h3
        · exact Or.inr (by simp at h4 ⊢; tauto)

theorem crlfToLf_eq_self : ∀ (l : List Char), (∀ c ∈ l, c ≠ '\r') → crlfToLf l = l
  | [], _ => rfl
  | [_], _ => rfl
  | a :: b :: rest, h => by
    have ha : a ≠ '\r' := h a (by simp)
    simp only [crlfToLf]
    rw [if_neg (fun hc => ha hc.1)]
    rw [crlfToLf_eq_self (b :: rest) (fun c hc => h c (by simp at hc ⊢; tauto))]

theorem dropWhile_dropWhile (p : Char → Bool) (l : List Char) :
    List.dropWhile p (List.dropWhile p l) = List.dropWhile p l := by
  induction l with
  | nil => rfl
  | cons a t ih =>
    by_cases hp : p a
    · simp [List.dropWhile_cons, hp, ih]
    · simp [List.dropWhile_cons, hp]

theorem dropWhile_of_prefix (p : Char → Bool) {w u : List Char}
    (hpre : w <+: u) (hu : List.dropWhile p u = u) : List.dropWhile p w = w := by
  cases w with
  | nil => rfl
  | cons a t =>
    obtain ⟨r, hr⟩ := hpre
    subst hr
    rw [List.cons_append] at hu
    by_cases hp : p a
    · exfalso
      rw [List.dropWhile_cons, if_pos hp] at hu
      have hlen := congrArg List.length hu
      have hle := List.Sublist.length_le (List.dropWhile_sublist (l := t ++ r) p)
      simp only [List.length_cons] at hlen
      omega
    · rw [List.dropWhile_cons, if_neg hp]

theorem trimEnds_prefixOf (l : List Char) : trimEnds l <+: l.dropWhile jsWs := by
  obtain ⟨t, ht⟩ := List.dropWhile_suffix (l := (l.dropWhile jsWs).reverse) jsWs
  have h2 : (List.dropWhile jsWs (l.dropWhile jsWs).reverse).reverse ++ t.reverse
      = l.dropWhile jsWs := by
    have h3 := congrArg List.reverse ht
    rw [List.reverse_append, List.reverse_reverse] at h3
    exact h3
  exact ⟨t.reverse, by simpa [trimEnds] using h2⟩

theorem trimEnds_trimEnds (l : List Char) : trimEnds (trimEnds l) = trimEnds l := by
  have hu : List.dropWhile jsWs (l.dropWhile jsWs) = l.dropWhile jsWs :=
    dropWhile_dropWhile jsWs l
  have hw : List.dropWhile jsWs (trimEnds l) = trimEnds l :=
    dropWhile_of_prefix jsWs (trimEnds_prefixOf l) hu
  show ((List.dropWhile jsWs (trimEnds l)).reverse.dropWhile jsWs).reverse = trimEnds l
  rw [hw]
  unfold trimEnds
  rw [List.reverse_reverse, dropWhile_dropWhile]

theorem mem_trimEnds {l : List Char} {c : Char} (h : c ∈ trimEnds l) : c ∈ l := by
  unfold trimEnds at h
  rw [List.mem_reverse] at h
  have h1 := List.Sublist.mem h (List.dropWhile_sublist jsWs)
  rw [List.mem_reverse] at h1
  exact List.Sublist.mem h1 (List.dropWhile_sublist jsWs)

theorem normalizeList_no_bad {l : List Char} :
    ∀ c ∈ normalizeList l, c ≠ '\x00' ∧ c ≠ '\x0c' ∧ c ≠ '\r' := by
  intro c hc
  have h1 : c ∈ crToLf (crlfToLf (ffToLf (removeNulls l))) := mem_trimEnds hc
  obtain ⟨a, ha, hfa⟩ := List.mem_map.mp h1
  have hane : a ≠ '\x00' ∧ a ≠ '\x0c' := by
    rcases mem_crlfToLf _ a ha with hnl | hmem
    · subst hnl
      exact ⟨by decide, by decide⟩
    · obtain ⟨b, hb, hfb⟩ := List.mem_map.mp hmem
      have hbnull : b ≠ '\x00' := by
        have := (List.mem_filter.mp hb).2
        simpa using this
      subst hfb
      unfold ffChar
      by_cases h : b = '\x0c'
      · rw [if_pos h]
        exact ⟨by decide, by decide⟩
      · rw [if_neg h]
        exact ⟨hbnull, h⟩
  subst hfa
  unfold crChar
  by_cases h : a = '\r'
  · rw [if_pos h]
    exact ⟨by decide, by decide, by decide⟩
  · rw [if_neg h]
    exact ⟨hane.1, hane.2, h⟩

theorem normalizeList_idem (l : List Char) :
    normalizeList (normalizeList l) = normalizeList l := by
  have hbad := normalizeList_no_bad (l := l)
  have h0 : removeNulls (normalizeList l) = normalizeList l := by
    apply List.filter_eq_self.mpr
    intro c hc
    simpa using (hbad c hc).1
  have h1 : ffToLf (normalizeList l) = normalizeList l := by
    apply map_eq_self_of_mem
    intro c hc
    unfold ffChar
    rw [if_neg (hbad c hc).2.1]
  have h2 : crlfToLf (normalizeList l) = normalizeList l :=
    crlfToLf_eq_self _ (fun c hc => (hbad c hc).2.2)
  have h3 : crToLf (normalizeList l) = normalizeList l := by
    apply map_eq_self_of_mem
    intro c hc
    unfold crChar
    rw [if_neg (hbad c hc).2.2]
  show trimEnds (crToLf (crlfToLf (ffToLf (removeNulls (normalizeList l))))) = normalizeList l
  rw [h0, h1, h2, h3]
  show trimEnds (normalizeList l) = normalizeList l
  unfold normalizeList
  exact trimEnds_trimEnds _

/-- Claim C9.  The text normalization function is idempotent:
`normalizeText (normalizeText s) = normalizeText s` for every string, and
consequently the meaningful-text predicate gives the same answer on raw and
on already-normalized text. -/
theorem normalizeText_idempotent (s : String) :
    normalizeText (normalizeText s) = normalizeText s ∧
    hasMeaningfulText (normalizeText s) = hasMeaningfulText s := by
  have h : normalizeText (normalizeText s) = normalizeText s :=
    congrArg String.mk (normalizeList_idem s.data)
  refine ⟨h, ?_⟩
  unfold hasMeaningfulText
  rw [h]

/-- Embedding of the quote-trigger test of `csvEscape`: the regular
expression class of double quote, comma, LF and CR. -/
def needsQuote (s : String) : Bool :=
  s.data.any (fun c => c == '"' || c == ',' || c == '\n' || c == '\r')

/-- Embedding of `.replaceAll` of a double quote by two double quotes. -/
def escQuotes : List Char → List Char
  | [] => []
  | c :: rest => if c = '"' then '"' :: '"' :: escQuotes rest else c :: escQuotes rest

/-- Embedding of `csvEscape` (ocr500 lines 174-177, identical in the other
pipeline variants): quote-wrap when the field matches the trigger class,
doubling internal double quotes, otherwise return the field verbatim. -/
def csvEscape (value : String) : String :=
  if needsQuote value then String.mk ('"' :: (escQuotes value.data ++ ['"'])) else value

/-- Final flush and empty-row filter of `parseCsvRows` (CSV viewer page,
lines 152-157): push the pending field/row if non-empty, then drop rows that
consist of a single empty field. -/
def parseCsvFinish (field : List Char) (row : List String) (rows : List (List String)) :
    List (List String) :=
  let rows2 :=
    if 0 < field.length ∨ 0 < row.length then rows ++ [row ++ [String.mk field]] else rows
  rows2.filter (fun r => !(r.length == 1 && r.headD "" == ""))

/-- Character loop of `parseCsvRows` (CSV viewer page, lines 107-151): state
is the remaining input, the in-quotes flag, the pending field, the pending
row and the accumulated rows. -/
def parseCsvLoop : List Char → Bool → List Char → List String → List (List String) →
    List (List String)
  | [], _, field, row, rows => parseCsvFinish field row rows
  | [c], true, field, row, rows =>
    if c = '"' then parseCsvFinish field row rows
    else parseCsvFinish (field ++ [c]) row rows
  | c :: d :: rest, true, field, row, rows =>
    if c = '"' then
      if d = '"' then parseCsvLoop rest true (field ++ ['"']) row rows
      else parseCsvLoop (d :: rest) false field row rows
    else parseCsvLoop (d :: rest) true (field ++ [c]) row rows
  | [c], false, field, row, rows =>
    if c = '"' then parseCsvFinish field row rows
    else if c = ',' then parseCsvFinish [] (row ++ [String.mk field]) rows
    else if c = '\n' then parseCsvFinish [] [] (rows ++ [row ++ [String.mk field]])
    else if c = '\r' then parseCsvFinish [] [] (rows ++ [row ++ [String.mk field]])
    else parseCsvFinish (field ++ [c]) row rows
  | c :: d :: rest, false, field, row, rows =>
    if c = '"' then parseCsvLoop (d :: rest) true field row rows
    else if c = ',' then parseCsvLoop (d :: rest) false [] (row ++ [String.mk field]) rows
    else if c = '\n' then parseCsvLoop (d :: rest) false [] [] (rows ++ [row ++ [String.mk field]])
    else if c = '\r' then
      if d = '\n' then parseCsvLoop rest false [] [] (rows ++ [row ++ [String.mk field]])
      else parseCsvLoop (d :: rest) false [] [] (rows ++ [row ++ [String.mk field]])
    else parseCsvLoop (d :: rest) false (field ++ [c]) row rows

/-- Embedding of `parseCsvRows` (CSV viewer page, lines 100-158): strip a
leading BOM, then run the character loop from the not-in-quotes state. -/
def parseCsvRows (input : String) : List (List String) :=
  let csv : List Char :=
    match input.data with
    | c :: rest => if c = '﻿' then rest else c :: rest
    | [] => []
  parseCsvLoop csv false [] [] []

theorem parseCsvFinish_single (d : List Char) (hd : d ≠ []) :
    parseCsvFinish d [] [] = [[String.mk d]] := by
  have hne : (String.mk d == "") = false := by
    rw [beq_eq_false_iff_ne]
    intro h
    exact hd (congrArg String.data h)
  unfold parseCsvFinish
  rw [if_pos (Or.inl (List.length_pos.mpr hd))]
  simp [List.filter, hne]

theorem parseCsvLoop_plain :
    ∀ (l field : List Char) (row : List String) (rows : List (List String)),
      (∀ c ∈ l, c ≠ '"' ∧ c ≠ ',' ∧ c ≠ '\n' ∧ c ≠ '\r') →
      parseCsvLoop l false field row rows = parseCsvFinish (field ++ l) row rows
  | [], field, row, rows, _ => by simp [parseCsvLoop]
  | [c], field, row, rows, h => by
    obtain ⟨h1, h2, h3, h4⟩ := h c (by simp)
    simp only [parseCsvLoop]
    rw [if_neg h1, if_neg h2, if_neg h3, if_neg h4]
  | c :: d :: rest, field, row, rows, h => by
    obtain ⟨h1, h2, h3, h4⟩ := h c (by simp)
    simp only [parseCsvLoop]
    rw [if_neg h1, if_neg h2, if_neg h3, if_neg h4]
    rw [parseCsvLoop_plain (d :: rest) (field ++ [c]) row rows
      (fun x hx => h x (by simp at hx ⊢; tauto))]
    simp

theorem parseCsvLoop_quoteOpen (l2 field : List Char) (row : List String)
    (rows : List (List String)) :
    parseCsvLoop ('"' :: l2) false field row rows = parseCsvLoop l2 true field row rows := by
  cases l2 with
  | nil => simp [parseCsvLoop]
  | cons d rest => simp [parseCsvLoop]

theorem parseCsvLoop_quoted :
    ∀ (l field : List Char) (row : List String) (rows : List (List String)),
      parseCsvLoop (escQuotes l ++ ['"']) true field row rows
        = parseCsvFinish (field ++ l) row rows
  | [], field, row, rows => by
    show parseCsvLoop ['"'] true field row rows = _
    simp [parseCsvLoop]
  | '"' :: t, field, row, rows => by
    show parseCsvLoop ('"' :: '"' :: (escQuotes t ++ ['"'])) true field row rows = _
    simp only [parseCsvLoop, if_pos rfl]
    rw [parseCsvLoop_quoted t (field ++ ['"']) row rows]
    simp
  | c :: t, field, row, rows => by
    by_cases hc : c = '"'
    · subst hc
      show parseCsvLoop ('"' :: '"' :: (escQuotes t ++ ['"'])) true field row rows = _
      simp only [parseCsvLoop, if_pos rfl]
      rw [parseCsvLoop_quoted t (field ++ ['"']) row rows]
      simp
    · show parseCsvLoop ((if c = '"' then '"' :: '"' :: escQuotes t else c :: escQuotes t)
        ++ ['"']) true field row rows = _
      rw [if_neg hc]
      obtain ⟨d, r, hdr⟩ : ∃ d r, escQuotes t ++ ['"'] = d :: r := by
        cases he : escQuotes t with
        | nil => exact ⟨'"', [], rfl⟩
        | cons x xs => exact ⟨x, xs ++ ['"'], by simp⟩
      show parseCsvLoop (c :: (escQuotes t ++ ['"'])) true field row rows = _
      rw [hdr]
      simp only [parseCsvLoop]
      rw [if_neg hc, ← hdr]
      rw [parseCsvLoop_quoted t (field ++ [c]) row rows]
      simp

/-- Claim C2, counterexample.  Escape-then-parse is not the identity on
every field: the empty field escapes to an empty CSV text whose parse drops
the lone empty row, and a BOM-headed field without a quote trigger loses its
BOM to the parser's BOM strip; moreover a field holding only a carriage
return (no comma, double quote or LF) is still quote-wrapped. -/
theorem csvEscape_roundTrip_cex :
    parseCsvRows (csvEscape "") ≠ [[""]] ∧
    csvEscape "\r" = "\"\r\"" ∧
    parseCsvRows (csvEscape "﻿a") ≠ [["﻿a"]] := by
  refine ⟨by decide, by decide, by decide⟩

/-- Claim C2 (amended).  `csvEscape` quote-wraps a field exactly when it
contains a comma, a double quote, an LF, or a CR (a carriage return also
counts as a newline trigger), doubling internal double quotes; and
re-parsing the escaped field with `parseCsvRows` reproduces the original
field for every field except the empty string and a field that begins with
U+FEFF yet contains no quote trigger (the parser drops a lone empty row and
strips a leading BOM). -/
theorem csvEscape_roundTrip (s : String) (hne : s ≠ "")
    (hbom : s.data.head? = some '﻿' → needsQuote s = true) :
    (needsQuote s = true ↔
      (',' ∈ s.data ∨ '"' ∈ s.data ∨ '\n' ∈ s.data ∨ '\r' ∈ s.data)) ∧
    (needsQuote s = true → (csvEscape s).data = '"' :: (escQuotes s.data ++ ['"'])) ∧
    (needsQuote s = false → csvEscape s = s) ∧
    parseCsvRows (csvEscape s) = [[s]] := by
  have hd : s.data ≠ [] := by
    intro h0
    apply hne
    cases s with
    | mk d =>
      show String.mk d = ""
      rw [show d = [] from h0]
  have hiff : needsQuote s = true ↔
      (',' ∈ s.data ∨ '"' ∈ s.data ∨ '\n' ∈ s.data ∨ '\r' ∈ s.data) := by
    unfold needsQuote
    rw [List.any_eq_true]
    constructor
    · rintro ⟨c, hc, hor⟩
      simp only [Bool.or_eq_true, beq_iff_eq] at hor
      rcases hor with ((h | h) | h) | h <;> subst h <;> tauto
    · rintro (h | h | h | h) <;> exact ⟨_, h, by decide⟩
  refine ⟨hiff, ?_, ?_, ?_⟩
  · intro h
    unfold csvEscape
    rw [if_pos h]
  · intro h
    unfold csvEscape
    rw [if_neg (by simp [h])]
  · by_cases hq : needsQuote s = true
    · have hesc : csvEscape s = String.mk ('"' :: (escQuotes s.data ++ ['"'])) := by
        unfold csvEscape
        rw [if_pos hq]
      rw [hesc]
      show parseCsvLoop
        (if ('"' : Char) = '﻿' then escQuotes s.data ++ ['"']
         else '"' :: (escQuotes s.data ++ ['"'])) false [] [] [] = [[s]]
      rw [if_neg (by decide)]
      rw [parseCsvLoop_quoteOpen (escQuotes s.data ++ ['"']) [] [] []]
      rw [parseCsvLoop_quoted s.data [] [] []]
      rw [List.nil_append, parseCsvFinish_single s.data hd]
    · have hq' : needsQuote s = false := by simp [hq]
      have hplain : ∀ c ∈ s.data, c ≠ '"' ∧ c ≠ ',' ∧ c ≠ '\n' ∧ c ≠ '\r' := by
        intro c hc
        have : ¬(c == '"' || c == ',' || c == '\n' || c == '\r') = true := by
          intro habs
          have : needsQuote s = true := by
            unfold needsQuote
            rw [List.any_eq_true]
            exact ⟨c, hc, habs⟩
          exact hq this
        simp only [Bool.or_eq_true, beq_iff_eq, not_or] at this
        tauto
      have hesc : csvEscape s = s := by
        unfold csvEscape
        rw [if_neg (by simp [hq'])]
      rw [hesc]
      obtain ⟨c, rest, hcr⟩ : ∃ c rest, s.data = c :: rest := by
        cases hds : s.data with
        | nil => exact absurd hds hd
        | cons a t => exact ⟨a, t, rfl⟩
      have hcbom : c ≠ '﻿' := by
        intro h0
        have hh : s.data.head? = some '﻿' := by rw [hcr, h0]; rfl
        rw [hbom hh] at hq'
        exact Bool.noConfusion hq'
      show parseCsvLoop
        (match s.data with
         | c :: rest => if c = '﻿' then rest else c :: rest
         | [] => []) false [] [] [] = [[s]]
      rw [hcr]
      show parseCsvLoop (if c = '﻿' then rest else c :: rest) false [] [] [] = [[s]]
      rw [if_neg hcbom]
      rw [← hcr]
      rw [parseCsvLoop_plain s.data [] [] [] hplain]
      rw [List.nil_append, parseCsvFinish_single s.data hd]

/-- Witness for the amended claim C2 at the concrete field `"a,b"`. -/
theorem csvEscape_roundTrip_witness : parseCsvRows (csvEscape "a,b") = [["a,b"]] :=
  (csvEscape_roundTrip "a,b" (by decide) (by decide)).2.2.2

/-- Catalog row of `granth_ocr_files` with the columns selected by the
pipeline scripts (`id,ufs_url,ut_key,file_name,file_size,custom_id,
original_rel_path,collection,subcollection`); nullable columns are `Option`. -/
structure SourceFile where
  id : Nat
  ufs_url : Option String
  ut_key : Option String
  file_name : Option String
  file_size : Option Nat
  custom_id : Option String
  original_rel_path : Option String
  collection : Option String
  subcollection : Option String
deriving DecidableEq

/-- JavaScript truthiness of a nullable string: `null`/`undefined` and the
empty string are falsy. -/
def strTruthy : Option String → Bool
  | none => false
  | some s => s != ""

/-- JavaScript `a || b` on nullable strings. -/
def jsOrStr (a b : Option String) : Option String :=
  if strTruthy a then a else b

/-- Candidate identity `file.custom_id || file.ut_key` used by the work-set
filter (ocr500 main, line 533). -/
def identityOf (f : SourceFile) : Option String := jsOrStr f.custom_id f.ut_key

/-- Usable-URL test, the filter `sourceFiles.filter((f) => f.ufs_url)`
(ocr500 main, line 521). -/
def usableUrl (f : SourceFile) : Bool := strTruthy f.ufs_url

/-- Embedding of the work-set computation (ocr500 main, lines 520-541, and
the identical filter of the pdftotext-stream variant): keep only candidates
with a usable URL; with `reprocess` keep all of those; otherwise drop
exactly the candidates whose truthy identity is in the processed set,
keeping identity-less candidates unconditionally. -/
def keepCandidate (processed : List String) (reprocess : Bool) (f : SourceFile) : Bool :=
  if reprocess then true
  else
    match identityOf f with
    | none => true
    | some s => if s = "" then true else !(processed.contains s)

/-- Work set as a list: URL filter then the keep predicate. -/
def computeWorkSet (cands : List SourceFile) (processed : List String)
    (reprocess : Bool) : List SourceFile :=
  let withUrl := cands.filter usableUrl
  withUrl.filter (keepCandidate processed reprocess)

theorem keepCandidate_false_iff (processed : List String) (f : SourceFile) :
    keepCandidate processed false f = true ↔
      ∀ s, identityOf f = some s → s ≠ "" → s ∉ processed := by
  unfold keepCandidate
  rw [if_neg Bool.false_ne_true]
  cases hid : identityOf f with
  | none =>
    simp
  | some s =>
    by_cases hse : s = ""
    · subst hse
      simp
    · show (if s = "" then true else !(processed.contains s)) = true ↔ _
      rw [if_neg hse]
      constructor
      · intro h s' hs' hne'
        have hss : s' = s := (Option.some_inj.mp hs').symm
        subst hss
        simpa using h
      · intro h
        have := h s rfl hse
        simpa using this

/-- Worker identity `file.custom_id || file.ut_key || granth_<id>`
(ocr500 main, line 560; same expression in the other variants). -/
def workerCustomId (f : SourceFile) : String :=
  match jsOrStr (identityOf f) (some ("granth_" ++ toString f.id)) with
  | some s => s
  | none => ""

/-- Claim C1.  With `reprocess` set, every candidate with a usable URL and a
truthy identity is in the work set and nothing without a usable URL ever is;
with `reprocess` unset, membership in the work set is equivalent to having a
usable URL and an identity that is not in the processed set — so exactly the
candidates whose identity is in the processed set are excluded. -/
theorem computeWorkSet_spec (cands : List SourceFile) (processed : List String) :
    (∀ f ∈ cands, usableUrl f = true → strTruthy (identityOf f) = true →
        f ∈ computeWorkSet cands processed true) ∧
    (∀ f ∈ computeWorkSet cands processed true, usableUrl f = true) ∧
    (∀ f ∈ cands,
        (f ∈ computeWorkSet cands processed false ↔
          usableUrl f = true ∧
            ∀ s, identityOf f = some s → s ≠ "" → s ∉ processed)) := by
  refine ⟨?_, ?_, ?_⟩
  · intro f hf hurl _
    unfold computeWorkSet
    simp only [List.mem_filter]
    exact ⟨⟨hf, hurl⟩, rfl⟩
  · intro f hf
    unfold computeWorkSet at hf
    simp only [List.mem_filter] at hf
    exact hf.1.2
  · intro f hf
    unfold computeWorkSet
    simp only [List.mem_filter]
    rw [keepCandidate_false_iff]
    constructor
    · rintro ⟨⟨-, hurl⟩, hpred⟩
      exact ⟨hurl, hpred⟩
    · rintro ⟨hurl, hids⟩
      exact ⟨⟨hf, hurl⟩, hids⟩

/-- Witness for claim C1: with processed set `{"A"}`, the candidate with
identity `"A"` is excluded from the non-reprocess work set, the candidate
with identity `"B"` is kept, and with reprocess both are in the work set. -/
theorem computeWorkSet_spec_witness :
    (⟨2, some "http://b", none, none, none, some "B", none, none, none⟩ : SourceFile) ∈
      computeWorkSet
        [⟨1, some "http://a", none, none, none, some "A", none, none, none⟩,
         ⟨2, some "http://b", none, none, none, some "B", none, none, none⟩] ["A"] false ∧
    (⟨1, some "http://a", none, none, none, some "A", none, none, none⟩ : SourceFile) ∉
      computeWorkSet
        [⟨1, some "http://a", none, none, none, some "A", none, none, none⟩,
         ⟨2, some "http://b", none, none, none, some "B", none, none, none⟩] ["A"] false ∧
    (⟨1, some "http://a", none, none, none, some "A", none, none, none⟩ : SourceFile) ∈
      computeWorkSet
        [⟨1, some "http://a", none, none, none, some "A", none, none, none⟩,
         ⟨2, some "http://b", none, none, none, some "B", none, none, none⟩] ["A"] true := by
  have h := computeWorkSet_spec
    [⟨1, some "http://a", none, none, none, some "A", none, none, none⟩,
     ⟨2, some "http://b", none, none, none, some "B", none, none, none⟩] ["A"]
  refine ⟨?_, ?_, ?_⟩
  · refine (h.2.2 _ (by simp)).mpr ⟨by decide, ?_⟩
    intro s hs
    have : s = "B" := by
      have : identityOf ⟨2, some "http://b", none, none, none, some "B", none, none, none⟩
          = some "B" := by decide
      rw [this] at hs
      exact (Option.some_inj.mp hs).symm
    subst this
    intro _
    decide
  · intro hmem
    have h2 := (h.2.2 _ (by simp)).mp hmem
    have h3 := h2.2 "A" (by decide) (by decide)
    simp at h3
  · exact h.1 _ (by simp) (by decide) (by decide)

/-- Claim C10.  A candidate row with neither `custom_id` nor `ut_key` is
always included in the work set even when `reprocess` is unset — it can
never be skipped as already processed — and its worker runs it under the
synthesized identity `granth_<id>`. -/
theorem identityless_candidate (cands : List SourceFile) (processed : List String)
    (f : SourceFile) (hmem : f ∈ cands) (hurl : usableUrl f = true)
    (hcid : f.custom_id = none) (hkey : f.ut_key = none) :
    f ∈ computeWorkSet cands processed false ∧
    workerCustomId f = "granth_" ++ toString f.id := by
  have hid : identityOf f = none := by
    unfold identityOf jsOrStr
    rw [hcid, hkey]
    rfl
  constructor
  · unfold computeWorkSet
    simp only [List.mem_filter]
    refine ⟨⟨hmem, hurl⟩, ?_⟩
    rw [keepCandidate_false_iff]
    intro s hs
    rw [hid] at hs
    exact absurd hs (by simp)
  · unfold workerCustomId jsOrStr
    rw [hid]
    rfl

/-- Witness for claim C10: a candidate with id 7 and no identity keys stays
in the work set even though `granth_7` is in the processed set, and its
worker identity is `granth_7`. -/
theorem identityless_candidate_witness :
    (⟨7, some "http://x", none, none, none, none, none, none, none⟩ : SourceFile) ∈
      computeWorkSet [⟨7, some "http://x", none, none, none, none, none, none, none⟩]
        ["granth_7"] false ∧
    workerCustomId ⟨7, some "http://x", none, none, none, none, none, none, none⟩
      = "granth_7" := by
  have h := identityless_candidate
    [⟨7, some "http://x", none, none, none, none, none, none, none⟩] ["granth_7"]
    ⟨7, some "http://x", none, none, none, none, none, none, none⟩
    (by simp) (by decide) rfl rfl
  exact ⟨h.1, h.2.trans (by decide)⟩

/-- Primary Tesseract page-segmentation mode (ocr500 line 22). -/
def PSM_PRIMARY : Nat := 6

/-- Fallback Tesseract page-segmentation mode (ocr500 line 23). -/
def PSM_FALLBACK : Nat := 3

/-- Embedding of `runTesseract` for one rendered page image: `rawOut` gives
the tesseract stdout for this image at a given psm mode; the wrapper
normalizes it (ocr500 lines 419-436). -/
def runTesseractM (rawOut : Nat → String) (psm : Nat) : String :=
  normalizeText (rawOut psm)

/-- OCR text of a page after the fallback chain (ocr500 lines 620-625):
primary psm first, retried once at the fallback psm when the primary result
has no meaningful text. -/
def pageOcrText (rawOut : Nat → String) : String :=
  let t1 := runTesseractM rawOut PSM_PRIMARY
  if hasMeaningfulText t1 then t1 else runTesseractM rawOut PSM_FALLBACK

/-- The psm modes at which tesseract is invoked for one page, in call order
(derived from ocr500 lines 620-625: one mandatory primary call, one
conditional fallback call on the same rendered image). -/
def pageOcrCalls (rawOut : Nat → String) : List Nat :=
  let t1 := runTesseractM rawOut PSM_PRIMARY
  if hasMeaningfulText t1 then [PSM_PRIMARY] else [PSM_PRIMARY, PSM_FALLBACK]

/-- Page result record pushed by the ocr500 page worker (line 630). -/
structure PageRec where
  page_number : Nat
  text : String
  chars : Nat
deriving DecidableEq

/-- Page record built by the ocr500 page worker (lines 627-630): normalized
text and its non-whitespace character count. -/
def pageExtract (rawOut : Nat → String) (page : Nat) : PageRec :=
  let text := pageOcrText rawOut
  let normalized := normalizeText text
  { page_number := page, text := normalized, chars := (stripWs normalized.data).length }

/-- Embedding of `pageResults.sort((a, b) => a.page_number - b.page_number)`
(ocr500 line 642). -/
def sortPages (l : List PageRec) : List PageRec :=
  l.mergeSort (fun a b => decide (a.page_number ≤ b.page_number))

/-- Pages kept for persistence and the artifact:
`pageResults.filter((p) => p.chars > 0)` after the sort (ocr500 line 643);
the same list drives both the page-row upserts and the CSV rows, in order. -/
def storedPages (l : List PageRec) : List PageRec :=
  (sortPages l).filter (fun p => decide (0 < p.chars))

/-- Claim C7.  A page whose primary-layout OCR yields no meaningful text is
retried exactly once at the fallback layout mode on the same rendered image
(the same `rawOut`), and its final text is the fallback result; a page whose
primary result is meaningful is never retried; a page declared empty
(chars = 0) necessarily went through the fallback retry; the fallback is
never invoked more than once. -/
theorem ocr_fallback_chain (rawOut : Nat → String) (page : Nat) :
    (hasMeaningfulText (runTesseractM rawOut PSM_PRIMARY) = true →
        pageOcrCalls rawOut = [PSM_PRIMARY]) ∧
    (hasMeaningfulText (runTesseractM rawOut PSM_PRIMARY) = false →
        pageOcrCalls rawOut = [PSM_PRIMARY, PSM_FALLBACK] ∧
        pageOcrText rawOut = runTesseractM rawOut PSM_FALLBACK) ∧
    ((pageExtract rawOut page).chars = 0 →
        pageOcrCalls rawOut = [PSM_PRIMARY, PSM_FALLBACK]) ∧
    (pageOcrCalls rawOut).count PSM_FALLBACK ≤ 1 := by
  by_cases h : hasMeaningfulText (runTesseractM rawOut PSM_PRIMARY) = true
  · have hcalls : pageOcrCalls rawOut = [PSM_PRIMARY] := by
      unfold pageOcrCalls
      rw [if_pos h]
    have hct : pageOcrText rawOut = runTesseractM rawOut PSM_PRIMARY := by
      unfold pageOcrText
      rw [if_pos h]
    have hidm : normalizeText (runTesseractM rawOut PSM_PRIMARY)
        = runTesseractM rawOut PSM_PRIMARY :=
      congrArg String.mk (normalizeList_idem (rawOut PSM_PRIMARY).data)
    have hch : (pageExtract rawOut page).chars ≠ 0 := by
      have he : (pageExtract rawOut page).chars
          = (stripWs (normalizeText (pageOcrText rawOut)).data).length := by
        simp only [pageExtract]
      rw [he, hct, hidm]
      have h' := h
      unfold hasMeaningfulText at h'
      rw [hidm] at h'
      simp only [decide_eq_true_eq] at h'
      omega
    refine ⟨fun _ => hcalls, fun hfa => absurd h (by simp [hfa]), ?_, ?_⟩
    · intro h0
      exact absurd h0 hch
    · rw [hcalls]
      decide
  · have h' : hasMeaningfulText (runTesseractM rawOut PSM_PRIMARY) = false := by
      simpa using h
    have hcalls : pageOcrCalls rawOut = [PSM_PRIMARY, PSM_FALLBACK] := by
      unfold pageOcrCalls
      rw [if_neg (by simp [h'])]
    have hct : pageOcrText rawOut = runTesseractM rawOut PSM_FALLBACK := by
      unfold pageOcrText
      rw [if_neg (by simp [h'])]
    refine ⟨fun ht => absurd ht h, fun _ => ⟨hcalls, hct⟩, fun _ => hcalls, ?_⟩
    rw [hcalls]
    decide

/-- Witness for claim C7: a page with empty primary OCR output is retried at
psm 3; a page with meaningful primary output is not. -/
theorem ocr_fallback_chain_witness :
    pageOcrCalls (fun psm => if psm == 6 then "" else "fallback text")
      = [PSM_PRIMARY, PSM_FALLBACK] ∧
    pageOcrCalls (fun psm => if psm == 6 then "primary text" else "")
      = [PSM_PRIMARY] := by
  constructor
  · exact ((ocr_fallback_chain (fun psm => if psm == 6 then "" else "fallback text") 1).2.1
      (by decide)).1
  · exact (ocr_fallback_chain (fun psm => if psm == 6 then "primary text" else "") 1).1
      (by decide)

theorem storedPages_sorted_strict (results : List PageRec)
    (hnd : (results.map PageRec.page_number).Nodup) :
    (storedPages results).Pairwise (fun a b => a.page_number < b.page_number) := by
  have hperm : (sortPages results).Perm results :=
    List.mergeSort_perm results (fun a b => decide (a.page_number ≤ b.page_number))
  have hsorted : (sortPages results).Pairwise
      (fun a b => (decide (a.page_number ≤ b.page_number)) = true) :=
    List.sorted_mergeSort
      (by
        intro a b c h1 h2
        simp only [decide_eq_true_eq] at h1 h2 ⊢
        omega)
      (by
        intro a b
        simp only [Bool.or_eq_true, decide_eq_true_eq]
        omega)
      results
  have hnd2 : ((sortPages results).map PageRec.page_number).Nodup :=
    ((hperm.map PageRec.page_number).nodup_iff).mpr hnd
  have hpw_ne : (sortPages results).Pairwise
      (fun a b => a.page_number ≠ b.page_number) := by
    have : (sortPages results).map PageRec.page_number
        |>.Pairwise (fun a b => a ≠ b) := hnd2
    exact List.pairwise_map.mp this
  have hcomb := hsorted.and hpw_ne
  have hlt : (sortPages results).Pairwise
      (fun a b => a.page_number < b.page_number) := by
    refine hcomb.imp ?_
    intro a b hab
    have h1 := hab.1
    simp only [decide_eq_true_eq] at h1
    omega
  exact hlt.filter _

/-- Claim C3.  For any multiset of per-page OCR results (pages produced by
the page worker, distinct page numbers, arbitrary completion order) the
stored page list is strictly ascending by page number, every stored page has
non-whitespace character count greater than zero, and the stored list does
not depend on the completion order. -/
theorem storedPages_invariant (results results2 : List PageRec)
    (hmk : ∀ p ∈ results, ∃ rawOut, p = pageExtract rawOut p.page_number)
    (hnd : (results.map PageRec.page_number).Nodup)
    (hperm : results2.Perm results) :
    (storedPages results).Pairwise (fun a b => a.page_number < b.page_number) ∧
    (∀ p ∈ storedPages results, 0 < (stripWs p.text.data).length) ∧
    storedPages results2 = storedPages results := by
  refine ⟨storedPages_sorted_strict results hnd, ?_, ?_⟩
  · intro p hp
    have hp1 := List.mem_filter.mp hp
    have hchars : 0 < p.chars := by
      have := hp1.2
      simpa using this
    have hmem : p ∈ results :=
      ((List.mergeSort_perm results _).mem_iff).mp hp1.1
    obtain ⟨rawOut, hpe⟩ := hmk p hmem
    rw [hpe] at hchars ⊢
    simp only [pageExtract] at hchars ⊢
    exact hchars
  · have hnd' : (results2.map PageRec.page_number).Nodup :=
      ((hperm.map PageRec.page_number).nodup_iff).mpr hnd
    have hs1 : (storedPages results2).Pairwise
        (fun a b => a.page_number < b.page_number) := storedPages_sorted_strict results2 hnd'
    have hs2 : (storedPages results).Pairwise
        (fun a b => a.page_number < b.page_number) := storedPages_sorted_strict results hnd
    have hp : (storedPages results2).Perm (storedPages results) := by
      have h1 : (sortPages results2).Perm (sortPages results) :=
        ((List.mergeSort_perm results2 _).trans hperm).trans
          (List.mergeSort_perm results _).symm
      exact h1.filter _
    haveI : IsAntisymm PageRec (fun a b => a.page_number < b.page_number) :=
      ⟨fun a b h1 h2 => absurd h2 (Nat.lt_asymm h1)⟩
    exact List.eq_of_perm_of_sorted hp hs1 hs2

/-- Witness for claim C3 on two concrete out-of-order page results: page 2
meaningful, page 1 empty; the stored list is the same for both completion
orders, is strictly ascending, and contains only meaningful pages. -/
theorem storedPages_invariant_witness :
    storedPages [pageExtract (fun _ => " ") 1, pageExtract (fun _ => "hello") 2]
      = storedPages [pageExtract (fun _ => "hello") 2, pageExtract (fun _ => " ") 1] ∧
    (∀ p ∈ storedPages [pageExtract (fun _ => "hello") 2, pageExtract (fun _ => " ") 1],
      0 < (stripWs p.text.data).length) := by
  have h := storedPages_invariant
    [pageExtract (fun _ => "hello") 2, pageExtract (fun _ => " ") 1]
    [pageExtract (fun _ => " ") 1, pageExtract (fun _ => "hello") 2]
    (by
      intro p hp
      simp only [List.mem_cons, List.not_mem_nil, or_false] at hp
      rcases hp with h1 | h1 <;> subst h1 <;> exact ⟨_, rfl⟩)
    (by
      have hm : [pageExtract (fun _ => "hello") 2,
          pageExtract (fun _ => " ") 1].map PageRec.page_number = [2, 1] := by
        simp only [List.map_cons, List.map_nil, pageExtract]
      rw [hm]
      decide)
    (List.Perm.swap (pageExtract (fun _ => "hello") 2) (pageExtract (fun _ => " ") 1) [])
  exact ⟨h.2.2, h.2.1⟩

/-- Page row as accumulated by the pdftotext-stream variant. -/
structure PageRow where
  page_number : Nat
  text : String
deriving DecidableEq

/-- Extraction stats of the pdftotext-stream variant, carried by its result
and by the extraction-empty error. -/
structure ExtractStats where
  totalPages : Nat
  storedPages : Nat
  emptyPages : Nat
deriving DecidableEq

/-- One step of the page loop of `extractAllPagesFromBuffer` (stream variant
lines 374-388): extract one page with pdftotext (already normalized), keep
it when it has non-whitespace characters, otherwise count it empty. -/
def extractStep (stdoutAt : Nat → String) (acc : List PageRow × Nat) (page : Nat) :
    List PageRow × Nat :=
  let text := normalizeText (stdoutAt page)
  if 0 < (stripWs text.data).length then (acc.1 ++ [⟨page, text⟩], acc.2)
  else (acc.1, acc.2 + 1)

/-- Embedding of `extractAllPagesFromBuffer` (stream variant lines 364-399):
loop over pages 1..totalPages, returning the kept pages and the stats
`{totalPages, storedPages, emptyPages}`. -/
def extractAllPages (totalPages : Nat) (stdoutAt : Nat → String) :
    List PageRow × ExtractStats :=
  let r := (List.range' 1 totalPages).foldl (extractStep stdoutAt) ([], 0)
  (r.1, ⟨totalPages, r.1.length, r.2⟩)

/-- Embedding of the meaningful-pages filter and empty-result check of the
stream variant's document worker (lines 474-481): when the filtered set is
empty the whole document fails with the extraction-empty error carrying the
stats, otherwise the filtered pages are persisted. -/
def docExtractOutcome (totalPages : Nat) (stdoutAt : Nat → String) :
    Except ExtractStats (List PageRow) :=
  let r := extractAllPages totalPages stdoutAt
  let nonEmpty := r.1.filter (fun p => hasMeaningfulText p.text)
  if nonEmpty.length = 0 then Except.error r.2 else Except.ok nonEmpty

/-- Final status written by the document worker: a worker that reaches the
end marks the record processed, a caught error marks it failed (stream
variant lines 502-513). -/
def docFinalStatus (outcome : Except ExtractStats (List PageRow)) : String :=
  match outcome with
  | Except.error _ => "failed"
  | Except.ok _ => "processed"

theorem extractStep_len (stdoutAt : Nat → String) :
    ∀ (L : List Nat) (acc : List PageRow × Nat),
      (L.foldl (extractStep stdoutAt) acc).1.length + (L.foldl (extractStep stdoutAt) acc).2
        = acc.1.length + acc.2 + L.length
  | [], acc => by simp
  | a :: L, acc => by
    rw [List.foldl_cons]
    rw [extractStep_len stdoutAt L (extractStep stdoutAt acc a)]
    simp only [extractStep]
    by_cases hp : 0 < (stripWs (normalizeText (stdoutAt a)).data).length
    · rw [if_pos hp]
      simp only [List.length_append, List.length_cons, List.length_nil, List.length_singleton]
      omega
    · rw [if_neg hp]
      simp only [List.length_cons]
      omega

theorem extractStep_mem (stdoutAt : Nat → String) :
    ∀ (L : List Nat) (acc : List PageRow × Nat) (p : PageRow),
      p ∈ (L.foldl (extractStep stdoutAt) acc).1 →
      p ∈ acc.1 ∨ hasMeaningfulText p.text = true
  | [], _, p => by
    intro hp
    exact Or.inl hp
  | a :: L, acc, p => by
    rw [List.foldl_cons]
    intro hp
    rcases extractStep_mem stdoutAt L _ p hp with h1 | h1
    · simp only [extractStep] at h1
      by_cases hc : 0 < (stripWs (normalizeText (stdoutAt a)).data).length
      · rw [if_pos hc] at h1
        rcases List.mem_append.mp h1 with h2 | h2
        · exact Or.inl h2
        · right
          have h3 : p = (⟨a, normalizeText (stdoutAt a)⟩ : PageRow) := by simpa using h2
          subst h3
          show hasMeaningfulText (normalizeText (stdoutAt a)) = true
          have hid : normalizeText (normalizeText (stdoutAt a)) = normalizeText (stdoutAt a) :=
            congrArg String.mk (normalizeList_idem (stdoutAt a).data)
          unfold hasMeaningfulText
          rw [hid]
          simpa using hc
      · rw [if_neg hc] at h1
        exact Or.inl h1
    · exact Or.inr h1

/-- Claim C4.  A document whose meaningful-pages-only filtered result set is
empty fails with the extraction-empty error carrying stats
`{totalPages, storedPages = 0, emptyPages = totalPages}`, and is recorded as
a failure, never as a zero-page success. -/
theorem extraction_empty_failure (totalPages : Nat) (stdoutAt : Nat → String)
    (hemp : (extractAllPages totalPages stdoutAt).1.filter
        (fun p => hasMeaningfulText p.text) = []) :
    docExtractOutcome totalPages stdoutAt = Except.error ⟨totalPages, 0, totalPages⟩ ∧
    docFinalStatus (docExtractOutcome totalPages stdoutAt) = "failed" := by
  have hpages : ∀ p ∈ ((List.range' 1 totalPages).foldl (extractStep stdoutAt) ([], 0)).1,
      (fun p => hasMeaningfulText p.text) p = true := by
    intro p hp
    rcases extractStep_mem stdoutAt _ _ p hp with h1 | h1
    · simp at h1
    · exact h1
  have hfe : ((List.range' 1 totalPages).foldl (extractStep stdoutAt) ([], 0)).1.filter
        (fun p => hasMeaningfulText p.text)
      = ((List.range' 1 totalPages).foldl (extractStep stdoutAt) ([], 0)).1 :=
    List.filter_eq_self.mpr hpages
  have hemp' : (extractAllPages totalPages stdoutAt).1.filter
      (fun p => hasMeaningfulText p.text)
      = ((List.range' 1 totalPages).foldl (extractStep stdoutAt) ([], 0)).1.filter
        (fun p => hasMeaningfulText p.text) := rfl
  have hnil : ((List.range' 1 totalPages).foldl (extractStep stdoutAt) ([], 0)).1 = [] := by
    rw [hemp', hfe] at hemp
    exact hemp
  have hlen := extractStep_len stdoutAt (List.range' 1 totalPages) ([], 0)
  rw [hnil] at hlen
  simp only [List.length_nil, List.length_range', Nat.zero_add] at hlen
  have hcnt : ((List.range' 1 totalPages).foldl (extractStep stdoutAt) ([], 0)).2
      = totalPages := by omega
  have houtcome : docExtractOutcome totalPages stdoutAt
      = Except.error ⟨totalPages, 0, totalPages⟩ := by
    show (let r := extractAllPages totalPages stdoutAt
      let nonEmpty := r.1.filter (fun p => hasMeaningfulText p.text)
      if nonEmpty.length = 0 then Except.error r.2 else Except.ok nonEmpty)
      = Except.error ⟨totalPages, 0, totalPages⟩
    show (if ((extractAllPages totalPages stdoutAt).1.filter
          (fun p => hasMeaningfulText p.text)).length = 0
        then Except.error (extractAllPages totalPages stdoutAt).2
        else Except.ok ((extractAllPages totalPages stdoutAt).1.filter
          (fun p => hasMeaningfulText p.text)))
      = Except.error ⟨totalPages, 0, totalPages⟩
    rw [hemp']
    rw [hfe, hnil]
    simp only [List.length_nil, if_pos rfl]
    have hst : (extractAllPages totalPages stdoutAt).2
        = ⟨totalPages, 0, totalPages⟩ := by
      show (⟨totalPages,
        ((List.range' 1 totalPages).foldl (extractStep stdoutAt) ([], 0)).1.length,
        ((List.range' 1 totalPages).foldl (extractStep stdoutAt) ([], 0)).2⟩ : ExtractStats)
        = ⟨totalPages, 0, totalPages⟩
      rw [hnil, hcnt]
      rfl
    rw [hst]
    simp
  exact ⟨houtcome, by rw [houtcome]; rfl⟩

/-- Witness for claim C4: a two-page document whose pages both normalize to
whitespace-only text fails with stats totalPages 2, storedPages 0,
emptyPages 2. -/
theorem extraction_empty_failure_witness :
    docExtractOutcome 2 (fun _ => " \t ") = Except.error ⟨2, 0, 2⟩ ∧
    docFinalStatus (docExtractOutcome 2 (fun _ => " \t ")) = "failed" :=
  extraction_empty_failure 2 (fun _ => " \t ") (by decide)

/-- Document payload assembled by the workers (ocr500 lines 566-573): the
identifying and descriptive columns; the artifact columns are not part of
the payload. -/
structure DocPayload where
  original_relative_path : Option String
  custom_id : String
  pdf_name : String
  pdf_url : Option String
  size_bytes : Option Nat
  modified_time_iso : Option String
deriving DecidableEq

/-- Row of the documents table: payload columns plus lifecycle columns
(status, error, artifact reference, timestamp). -/
structure DocRow where
  original_relative_path : Option String
  custom_id : String
  pdf_name : String
  pdf_url : Option String
  size_bytes : Option Nat
  modified_time_iso : Option String
  status : String
  error : Option String
  csv_url : Option String
  csv_key : Option String
  updated_at : Nat
deriving DecidableEq

/-- Embedding of `upsertDocFailed` (ocr500 lines 325-339): upsert by
custom_id of the payload columns plus status `failed`, the error text and
the timestamp; `csv_url`/`csv_key` are not in the written object, so on a
conflicting upsert they keep their previous values (null on fresh insert). -/
def upsertDocFailed (prev : Option DocRow) (payload : DocPayload)
    (errorMessage : String) (now : Nat) : DocRow :=
  { original_relative_path := payload.original_relative_path
    custom_id := payload.custom_id
    pdf_name := payload.pdf_name
    pdf_url := payload.pdf_url
    size_bytes := payload.size_bytes
    modified_time_iso := payload.modified_time_iso
    status := "failed"
    error := some errorMessage
    csv_url := match prev with
      | some r => r.csv_url
      | none => none
    csv_key := match prev with
      | some r => r.csv_key
      | none => none
    updated_at := now }

/-- Embedding of `upsertDocumentFailed` of the manifest-driven variant
(part_006 lines 445-461): the written object explicitly includes
`csv_url: null` and `csv_key: null`, so this failed-state write clears the
artifact reference regardless of the previous row. -/
def upsertDocumentFailed (_prev : Option DocRow) (payload : DocPayload)
    (errorMessage : String) (now : Nat) : DocRow :=
  { original_relative_path := payload.original_relative_path
    custom_id := payload.custom_id
    pdf_name := payload.pdf_name
    pdf_url := payload.pdf_url
    size_bytes := payload.size_bytes
    modified_time_iso := payload.modified_time_iso
    status := "failed"
    error := some errorMessage
    csv_url := none
    csv_key := none
    updated_at := now }

/-- Claim C6, counterexample.  The claim fails on the part_006 variant: its
failed-state write clears the artifact reference.  A previously processed
record holding a csv_url loses it when `upsertDocumentFailed` runs. -/
theorem failed_write_cex :
    (upsertDocumentFailed
      (some ⟨none, "doc1", "doc1.pdf", none, none, none, "processed", none,
        some "https://app.ufs.sh/f/doc1__pages_csv", some "k1", 1⟩)
      ⟨none, "doc1", "doc1.pdf", none, none, none⟩ "boom" 2).csv_url = none ∧
    (some "https://app.ufs.sh/f/doc1__pages_csv" : Option String) ≠ none :=
  ⟨rfl, by decide⟩

/-- Claim C6 (amended).  In the ocr500 variant the failed-state write sets
status, non-null error text and the timestamp and leaves the artifact
reference (csv_url, csv_key) untouched; in the part_006 variant
(`upsertDocumentFailed`) the failed-state write also sets non-null error
text but clears csv_url and csv_key to null. -/
theorem failed_write_frame (prev : DocRow) (payload : DocPayload)
    (msg : String) (now : Nat) :
    ((upsertDocFailed (some prev) payload msg now).csv_url = prev.csv_url ∧
     (upsertDocFailed (some prev) payload msg now).csv_key = prev.csv_key ∧
     (upsertDocFailed (some prev) payload msg now).status = "failed" ∧
     (upsertDocFailed (some prev) payload msg now).error = some msg ∧
     (upsertDocFailed (some prev) payload msg now).updated_at = now) ∧
    ((upsertDocumentFailed (some prev) payload msg now).csv_url = none ∧
     (upsertDocumentFailed (some prev) payload msg now).csv_key = none ∧
     (upsertDocumentFailed (some prev) payload msg now).error = some msg) :=
  ⟨⟨rfl, rfl, rfl, rfl, rfl⟩, rfl, rfl, rfl⟩

/-- Result data of an UploadThing upload (fields read by the scripts). -/
structure UploadData where
  ufsUrl : Option String
  url : Option String
  key : Option String
deriving DecidableEq

/-- First element of the `uploadFiles` response: either a data payload or an
error (modelled by its stringified text). -/
inductive UploadFirst where
  | ok (data : UploadData)
  | fail (errText : String)
deriving DecidableEq

/-- One hit of the `getFileUrls` lookup. -/
structure LookupHit where
  url : Option String
  key : Option String
deriving DecidableEq

/-- Artifact reference returned by the uploaders. -/
structure CsvRef where
  csvUrl : Option String
  csvKey : Option String
deriving DecidableEq

/-- JavaScript nullish coalescing `a ?? b` on nullable strings. -/
def ocoal (a b : Option String) : Option String :=
  match a with
  | some x => some x
  | none => b

/-- The constructed fallback URL `https://<appId>.ufs.sh/f/<customId>`. -/
def synthUrl (appId customId : String) : String :=
  "https://" ++ appId ++ ".ufs.sh/f/" ++ customId

/-- ASCII lowering, modelling the case-insensitive regex flag. -/
def asciiLower (l : List Char) : List Char :=
  l.map (fun c => if 'A' ≤ c ∧ c ≤ 'Z' then Char.ofNat (c.toNat + 32) else c)

/-- Needle-at-head test for substring search. -/
def startsWithList : List Char → List Char → Bool
  | _, [] => true
  | [], _ :: _ => false
  | a :: hs, b :: ns => a == b && startsWithList hs ns

/-- Substring containment on character lists. -/
def containsSub : List Char → List Char → Bool
  | [], needle => needle.isEmpty
  | hay@(_ :: rest), needle => startsWithList hay needle || containsSub rest needle

/-- Embedding of the conflict test `/already exists|409/i.test(text)`
(ocr500 line 465). -/
def isConflictText (s : String) : Bool :=
  containsSub (asciiLower s.data) "already exists".data || containsSub s.data "409".data

/-- Embedding of `shortErr` applied to an error text (ocr500 lines 146-149):
truncate to the limit and append an ellipsis. -/
def shortErrText (message : String) (max : Nat) : String :=
  if max < message.length then String.mk (message.data.take max) ++ "..." else message

/-- Hit resolution of the getFileUrls lookup inside the ocr500 uploader's
error path (ocr500 lines 452-463): the first hit of the lookup data, when it
has a truthy url or key, yields the existing object's reference. -/
def lookupRef (lookup : Option (List LookupHit)) (appId : Option String)
    (csvCustomId : String) : Option CsvRef :=
  match lookup with
  | none => none
  | some hits =>
    match hits.head? with
    | none => none
    | some hit =>
      if strTruthy hit.url || strTruthy hit.key then
        some ⟨ocoal hit.url
            (if strTruthy appId then some (synthUrl (appId.getD "") csvCustomId)
             else none),
          ocoal hit.key none⟩
      else none

/-- Embedding of `uploadCsv` of the ocr500 script (lines 438-479).  Inputs
model the store's responses: `first` is the first element of the
uploadFiles result (none when the result list is empty), `lookup` the
getFileUrls response (`none` models a thrown lookup), `appId` the optional
UPLOADTHING_APP_ID.  On an upload error the uploader first tries to resolve
the existing object by customId lookup; failing that, a conflict-shaped
error with a truthy appId resolves to the constructed URL; only otherwise
does it raise. -/
def uploadCsv (first : Option UploadFirst) (lookup : Option (List LookupHit))
    (appId : Option String) (csvCustomId : String) : Except String CsvRef :=
  match first with
  | none => Except.error "uploadFiles returned empty"
  | some (UploadFirst.ok d) => Except.ok ⟨ocoal d.ufsUrl d.url, ocoal d.key none⟩
  | some (UploadFirst.fail text) =>
    match lookupRef lookup appId csvCustomId with
    | some ref => Except.ok ref
    | none =>
      if isConflictText text && strTruthy appId then
        Except.ok ⟨some (synthUrl (appId.getD "") csvCustomId), none⟩
      else Except.error ("uploadFiles error: " ++ shortErrText text 1800)

/-- Embedding of `uploadCsv` of the plain in-memory variant
(index_granth_from_db.mjs lines 186-203): any upload error, conflicts
included, raises immediately; there is no lookup fallback. -/
def uploadCsvDb (first : Option UploadFirst) : Except String CsvRef :=
  match first with
  | none => Except.error "uploadFiles returned empty"
  | some (UploadFirst.fail text) => Except.error ("uploadFiles error: " ++ text)
  | some (UploadFirst.ok d) => Except.ok ⟨ocoal d.ufsUrl d.url, ocoal d.key none⟩

/-- Claim C5, counterexample.  The claim fails on the plain in-memory
variant: when the store reports that the key already exists, its uploadCsv
raises UploadError without attempting any resolution. -/
theorem upload_conflict_cex :
    isConflictText "already exists (409)" = true ∧
    uploadCsvDb (some (UploadFirst.fail "already exists (409)"))
      = Except.error "uploadFiles error: already exists (409)" :=
  ⟨by decide, rfl⟩

/-- Claim C5 (amended).  In the ocr500 variant a conflicting upload is not
fatal: when the lookup resolves the existing object (a head hit with a
truthy url or key) the uploader returns that reference without raising, and
it raises UploadError only when that resolution yields no usable hit (in
particular, with a truthy appId a conflict never raises at all).  The plain
in-memory variant instead raises on every upload error, conflicts
included. -/
theorem upload_conflict_resolution (text : String) (lookup : Option (List LookupHit))
    (appId : Option String) (cid : String)
    (hconf : isConflictText text = true) :
    (∀ hits hit, lookup = some hits → hits.head? = some hit →
        (strTruthy hit.url || strTruthy hit.key) = true →
        uploadCsv (some (UploadFirst.fail text)) lookup appId cid
          = Except.ok ⟨ocoal hit.url
              (if strTruthy appId then some (synthUrl (appId.getD "") cid) else none),
            ocoal hit.key none⟩) ∧
    (∀ e, uploadCsv (some (UploadFirst.fail text)) lookup appId cid = Except.error e →
        (∀ hits hit, lookup = some hits → hits.head? = some hit →
          (strTruthy hit.url || strTruthy hit.key) = false) ∧
        strTruthy appId = false) ∧
    (∀ t, uploadCsvDb (some (UploadFirst.fail t))
        = Except.error ("uploadFiles error: " ++ t)) := by
  refine ⟨?_, ?_, fun t => rfl⟩
  · intro hits hit hl hh htr
    subst hl
    simp only [uploadCsv, lookupRef]
    rw [hh]
    simp [htr]
  · intro e herr
    simp only [uploadCsv] at herr
    cases hv : lookupRef lookup appId cid with
    | some ref =>
      rw [hv] at herr
      exact absurd herr (by simp)
    | none =>
      rw [hv] at herr
      by_cases happ : strTruthy appId = true
      · rw [if_pos (by rw [hconf, happ]; rfl)] at herr
        exact absurd herr (by simp)
      · refine ⟨?_, by simpa using happ⟩
        intro hits hit hl hh
        by_cases htr : (strTruthy hit.url || strTruthy hit.key) = true
        · exfalso
          subst hl
          simp only [lookupRef] at hv
          rw [hh] at hv
          simp [htr] at hv
        · simpa using htr

/-- Witness for the amended claim C5: a conflicting upload whose lookup
returns a usable hit resolves to that hit's reference instead of raising. -/
theorem upload_conflict_resolution_witness :
    uploadCsv (some (UploadFirst.fail "already exists"))
      (some [⟨some "https://app.ufs.sh/f/c1", some "k1"⟩]) none "c1"
      = Except.ok ⟨some "https://app.ufs.sh/f/c1", some "k1"⟩ := by
  have h := (upload_conflict_resolution "already exists"
    (some [⟨some "https://app.ufs.sh/f/c1", some "k1"⟩]) none "c1" (by decide)).1
    [⟨some "https://app.ufs.sh/f/c1", some "k1"⟩]
    ⟨some "https://app.ufs.sh/f/c1", some "k1"⟩ rfl rfl (by decide)
  exact h.trans (by rfl)

/-- Status of one worker task of `runConcurrent`. -/
inductive WStatus where
  | idle
  | busy (idx : Nat)
  | crashed
  | done
deriving DecidableEq

/-- State of the shared-cursor pool: the shared index cursor `next`, the
status of each worker task, and the item indices whose handler has been
invoked, in claim order. -/
structure PoolState where
  next : Nat
  workers : List WStatus
  invoked : List Nat
deriving DecidableEq

/-- Cursor claim of an idle worker (ocr500 lines 486-490): read the cursor,
increment it, and either stop (index past the end) or start the handler on
that item. -/
def claimStep (len : Nat) (s : PoolState) (i : Nat) : PoolState :=
  if len ≤ s.next then
    { s with next := s.next + 1, workers := s.workers.set i WStatus.done }
  else
    { next := s.next + 1, workers := s.workers.set i (WStatus.busy s.next),
      invoked := s.invoked ++ [s.next] }

/-- Handler completion of a busy worker: a handler that returns lets the
worker loop for the next item; a handler that throws rejects the worker's
async function, which stops pulling items. -/
def finishStep (hres : Nat → Bool) (s : PoolState) (i : Nat) (idx : Nat) : PoolState :=
  { s with workers := s.workers.set i (if hres idx then WStatus.idle else WStatus.crashed) }

/-- One interleaving step of `runConcurrent` (ocr500 lines 481-495) by
worker `i`; steps of crashed or finished workers (or out-of-range indices)
change nothing — in particular a crashed worker never blocks its
siblings. -/
def stepWorker (len : Nat) (hres : Nat → Bool) (s : PoolState) (i : Nat) : PoolState :=
  match s.workers[i]? with
  | some WStatus.idle => claimStep len s i
  | some (WStatus.busy idx) => finishStep hres s i idx
  | _ => s

/-- Run a schedule, i.e. a sequence of worker choices. -/
def runSched (len : Nat) (hres : Nat → Bool) (s : PoolState) : List Nat → PoolState
  | [] => s
  | i :: sched => runSched len hres (stepWorker len hres s i) sched

/-- Initial pool: `Math.min(concurrency, items.length)` idle worker tasks
and the shared cursor at 0 (ocr500 line 485). -/
def initPool (n len : Nat) : PoolState :=
  ⟨0, List.replicate (min n len) WStatus.idle, []⟩

def isBusy : WStatus → Bool
  | WStatus.busy _ => true
  | _ => false

/-- Number of simultaneously in-flight handlers. -/
def busyCount (s : PoolState) : Nat := (s.workers.filter isBusy).length

/-- Every worker task has run to completion. -/
def allDone (s : PoolState) : Bool := s.workers.all (fun w => w == WStatus.done)

/-- Pool invariant: the worker count is fixed at min n len, the invoked
indices are exactly the cursor prefix clipped to the item count, and a
finished worker implies the cursor has passed the end. -/
def PoolInv (n len : Nat) (s : PoolState) : Prop :=
  s.workers.length = min n len ∧
  s.invoked = List.range (min s.next len) ∧
  (WStatus.done ∈ s.workers → len < s.next)

theorem poolInv_init (n len : Nat) : PoolInv n len (initPool n len) := by
  refine ⟨by simp [initPool], by simp [initPool], ?_⟩
  intro h
  simp [initPool, List.mem_replicate] at h

theorem poolInv_step (n len : Nat) (hres : Nat → Bool) (s : PoolState) (i : Nat)
    (h : PoolInv n len s) : PoolInv n len (stepWorker len hres s i) := by
  obtain ⟨hlen, hinv, hdone⟩ := h
  cases hw : s.workers[i]? with
  | none =>
    rw [show stepWorker len hres s i = s from by simp [stepWorker, hw]]
    exact ⟨hlen, hinv, hdone⟩
  | some w =>
    cases w with
    | idle =>
      rw [show stepWorker len hres s i = claimStep len s i from by simp [stepWorker, hw]]
      unfold claimStep
      by_cases hnext : len ≤ s.next
      · rw [if_pos hnext]
        refine ⟨by simp [hlen], ?_, ?_⟩
        · show s.invoked = List.range (min (s.next + 1) len)
          rw [hinv]
          congr 1
          omega
        · intro _
          show len < s.next + 1
          omega
      · rw [if_neg hnext]
        refine ⟨by simp [hlen], ?_, ?_⟩
        · show s.invoked ++ [s.next] = List.range (min (s.next + 1) len)
          rw [hinv]
          have h1 : min s.next len = s.next := by omega
          have h2 : min (s.next + 1) len = s.next + 1 := by omega
          rw [h1, h2, List.range_succ]
        · intro hmem
          show len < s.next + 1
          rcases List.mem_or_eq_of_mem_set hmem with h1 | h1
          · have := hdone h1
            omega
          · exact WStatus.noConfusion h1
    | busy idx =>
      rw [show stepWorker len hres s i = finishStep hres s i idx from by
        simp [stepWorker, hw]]
      refine ⟨by simp [finishStep, hlen], hinv, ?_⟩
      intro hmem
      simp only [finishStep] at hmem
      rcases List.mem_or_eq_of_mem_set hmem with h1 | h1
      · exact hdone h1
      · by_cases hr : hres idx = true
        · rw [if_pos hr] at h1
          exact WStatus.noConfusion h1
        · rw [if_neg hr] at h1
          exact WStatus.noConfusion h1
    | crashed =>
      rw [show stepWorker len hres s i = s from by simp [stepWorker, hw]]
      exact ⟨hlen, hinv, hdone⟩
    | done =>
      rw [show stepWorker len hres s i = s from by simp [stepWorker, hw]]
      exact ⟨hlen, hinv, hdone⟩

theorem poolInv_run (n len : Nat) (hres : Nat → Bool) :
    ∀ (sched : List Nat) (s : PoolState), PoolInv n len s →
      PoolInv n len (runSched len hres s sched)
  | [], _, h => h
  | i :: sched, s, h =>
    poolInv_run n len hres sched (stepWorker len hres s i) (poolInv_step n len hres s i h)

/-- Claim C8 (amended).  The shared-cursor driver creates exactly
min(N, len) worker tasks, so under every interleaving and every assignment
of handler outcomes at most min(N, len) handlers are in flight; the invoked
indices are always the cursor prefix, so no item's handler runs twice; and
whenever every worker has run to completion, every item's handler was
invoked exactly once.  A handler that throws stops only its own worker —
sibling steps stay enabled, there is no cancellation — but the driver then
rejects, and completion of all items regardless of failures holds only when
handlers report failure by returning (as the document worker, which catches
its own errors, does). -/
theorem runConcurrent_pool (n len : Nat) (hres : Nat → Bool) (sched : List Nat)
    (hn : 1 ≤ n) :
    busyCount (runSched len hres (initPool n len) sched) ≤ min n len ∧
    (runSched len hres (initPool n len) sched).invoked
      = List.range (min (runSched len hres (initPool n len) sched).next len) ∧
    (runSched len hres (initPool n len) sched).invoked.Nodup ∧
    (allDone (runSched len hres (initPool n len) sched) = true →
      (runSched len hres (initPool n len) sched).invoked = List.range len) := by
  obtain ⟨hlen, hinvk, hdone⟩ :=
    poolInv_run n len hres sched (initPool n len) (poolInv_init n len)
  refine ⟨?_, hinvk, ?_, ?_⟩
  · have h1 : busyCount (runSched len hres (initPool n len) sched)
        ≤ (runSched len hres (initPool n len) sched).workers.length :=
      List.length_filter_le _ _
    omega
  · rw [hinvk]
    exact List.nodup_range _
  · intro hall
    rw [hinvk]
    by_cases hlen0 : len = 0
    · subst hlen0
      simp
    · have hpos : 0 < (runSched len hres (initPool n len) sched).workers.length := by
        rw [hlen]
        omega
      obtain ⟨w, hw⟩ := List.exists_mem_of_ne_nil _ (List.ne_nil_of_length_pos hpos)
      have hwd : w = WStatus.done := by
        have := (List.all_eq_true.mp hall) w hw
        simpa using this
      subst hwd
      have := hdone hw
      congr 1
      omega

/-- Witness for the amended claim C8: two workers over three items under a
completing schedule; every item's handler is invoked exactly once. -/
theorem runConcurrent_pool_witness :
    (runSched 3 (fun _ => true) (initPool 2 3) [0, 1, 0, 1, 0, 0, 0, 1]).invoked
      = List.range 3 :=
  (runConcurrent_pool 2 3 (fun _ => true) [0, 1, 0, 1, 0, 0, 0, 1]
    (by decide)).2.2.2 (by decide)

/-- Handler outcome function of the C8 counterexample: the handler of item 0
throws, every other handler returns normally. -/
def crashOnFirst (idx : Nat) : Bool := idx != 0

/-- Claim C8, counterexample.  With one worker and two items, a handler that
throws on item 0 stops the only worker after a single invocation: the pool
is stuck (a further step of the worker changes nothing), item 1's handler is
never invoked, and the pool never completes — refuting "each item's handler
is invoked exactly once" and "completion waits for all tasks regardless of
individual handler failures" for throwing handlers. -/
theorem runConcurrent_pool_cex :
    runSched 2 crashOnFirst (initPool 1 2) [0, 0]
      = ⟨1, [WStatus.crashed], [0]⟩ ∧
    stepWorker 2 crashOnFirst ⟨1, [WStatus.crashed], [0]⟩ 0
      = ⟨1, [WStatus.crashed], [0]⟩ ∧
    ([0] : List Nat) ≠ List.range 2 ∧
    allDone ⟨1, [WStatus.crashed], [0]⟩ = false :=
  ⟨by decide, by decide, by decide, by decide⟩

end LibraryShasan
